import Mathlib

/-!
Shallow embedding of the hammr-cdn content-addressable store.

JavaScript strings are modelled as `List Char` (`JStr`), byte payloads as
`List Nat` (`Bytes`).  The `MemoryStorage` adapter (a JS `Map`) is modelled
as an insertion-ordered association list with the semantics of `Map.set`,
`Map.get`, `Map.has`, `Map.delete` and `Map.keys`.  The SHA-256 primitive
comes from the external package `@sygnl/normalizer` and is out of scope of
the repository; the model is parameterised by an arbitrary digest function
`hashFn : Bytes → JStr`, mirroring that `CDN.put` feeds it exactly the
payload bytes and nothing else.  `Date.now()` is modelled by an explicit
`now : Nat` argument threaded to each call.
-/

namespace HammrCDN

abbrev JStr := List Char

abbrev Bytes := List Nat

/-- Models JavaScript `s.startsWith(pre)`. -/
def jsStartsWith (pre s : JStr) : Bool := s.take pre.length = pre

/-- Models JavaScript `s.replace(pat, repl)` for a plain-string pattern:
the first occurrence of `pat` in `s` is replaced by `repl`. -/
def jsReplaceFirst (pat repl : JStr) : JStr → JStr
  | [] => if pat = [] then repl else []
  | c :: rest =>
      if jsStartsWith pat (c :: rest) then repl ++ (c :: rest).drop pat.length
      else c :: jsReplaceFirst pat repl rest

/-- Models JavaScript `s.split(sep)[0]`: the prefix of `s` before the first
occurrence of `sep`, or all of `s` when `sep` does not occur. -/
def jsSplitHead (sep : Char) : JStr → JStr
  | [] => []
  | c :: rest => if c = sep then [] else c :: jsSplitHead sep rest

/-- Models JavaScript `s.split(sep).pop()`: the suffix of `s` after the last
occurrence of `sep`, or all of `s` when `sep` does not occur (JS `split`
always returns a non-empty array, so `pop` is total). -/
def jsSplitLast (sep : Char) (s : JStr) : JStr :=
  (s.reverse.takeWhile (fun c => c ≠ sep)).reverse

/-- Models JavaScript `s.toLowerCase()` on the ASCII strings used here. -/
def jsToLower (s : JStr) : JStr := s.map Char.toLower

/-- The `CONTENT_TYPES` table of `src/types.ts` (extension to MIME type). -/
def CONTENT_TYPES : List (JStr × JStr) :=
  [ ("jpg".toList, "image/jpeg".toList)
  , ("jpeg".toList, "image/jpeg".toList)
  , ("png".toList, "image/png".toList)
  , ("gif".toList, "image/gif".toList)
  , ("webp".toList, "image/webp".toList)
  , ("svg".toList, "image/svg+xml".toList)
  , ("ico".toList, "image/x-icon".toList)
  , ("pdf".toList, "application/pdf".toList)
  , ("json".toList, "application/json".toList)
  , ("xml".toList, "application/xml".toList)
  , ("txt".toList, "text/plain".toList)
  , ("html".toList, "text/html".toList)
  , ("css".toList, "text/css".toList)
  , ("csv".toList, "text/csv".toList)
  , ("js".toList, "application/javascript".toList)
  , ("mjs".toList, "application/javascript".toList)
  , ("ts".toList, "application/typescript".toList)
  , ("wasm".toList, "application/wasm".toList)
  , ("zip".toList, "application/zip".toList)
  , ("gz".toList, "application/gzip".toList)
  , ("tar".toList, "application/x-tar".toList)
  , ("mp3".toList, "audio/mpeg".toList)
  , ("mp4".toList, "video/mp4".toList)
  , ("webm".toList, "video/webm".toList)
  , ("ogg".toList, "audio/ogg".toList)
  , ("woff".toList, "font/woff".toList)
  , ("woff2".toList, "font/woff2".toList)
  , ("ttf".toList, "font/ttf".toList)
  , ("otf".toList, "font/otf".toList) ]

/-- Models the own-entry part of the JS index access `CONTENT_TYPES[ext]`:
the string values bound by the object literal itself.  Member names that
the literal inherits from `Object.prototype` are not own entries; they are
handled by `objectPrototypeKeys` and `detectContentTypeFull` below. -/
def lookupContentType (ext : JStr) : Option JStr :=
  (CONTENT_TYPES.find? (fun p => p.1 = ext)).map Prod.snd

/-- The member names a plain JS object literal inherits from
`Object.prototype`.  An index access `CONTENT_TYPES[k]` for these `k`
yields the inherited member — a truthy non-string value (a function, or
for `__proto__` the prototype object) — rather than `undefined`.  Property
lookup is case-sensitive, and the source lower-cases the extension before
indexing, so only the all-lowercase names `constructor` and `__proto__`
are reachable from a filename; the full list is kept for fidelity of the
index-access model. -/
def objectPrototypeKeys : List JStr :=
  [ "constructor".toList
  , "__proto__".toList
  , "toString".toList
  , "toLocaleString".toList
  , "valueOf".toList
  , "hasOwnProperty".toList
  , "isPrototypeOf".toList
  , "propertyIsEnumerable".toList
  , "__defineGetter__".toList
  , "__defineSetter__".toList
  , "__lookupGetter__".toList
  , "__lookupSetter__".toList ]

/-- The default MIME type `application/octet-stream`. -/
def octetStream : JStr := "application/octet-stream".toList

/-- `detectContentType` of `src/types.ts`:
`const ext = filename.split('.').pop()?.toLowerCase();`
`return ext ? (CONTENT_TYPES[ext] || defaultType) : defaultType;`
The empty string is the only falsy value `ext` can take, and the table
holds no empty MIME strings.  This string-valued embedding (the codomain
the stored metadata uses) is faithful for every extension that does not
name an `Object.prototype` member; for those member names the source
returns the truthy inherited non-string value, which `detectContentTypeFull`
below models explicitly. -/
def detectContentType (filename : JStr) (defaultType : JStr := octetStream) : JStr :=
  let ext := jsToLower (jsSplitLast '.' filename)
  if ext = [] then defaultType else (lookupContentType ext).getD defaultType

/-- The possible results of the source expression
`CONTENT_TYPES[ext] || defaultType`: a string (an own table entry, or the
fallback), or the truthy non-string member inherited from
`Object.prototype` when `ext` names one (the `||` keeps that value). -/
inductive DetectResult
  | mime (s : JStr)
  | protoValue (name : JStr)
deriving DecidableEq

/-- `detectContentType` of `src/types.ts` with the prototype chain of the
object literal modelled in full: an own table entry is returned; an
extension naming an `Object.prototype` member yields that truthy
non-string inherited value (marked `protoValue`), not the fallback; every
other non-empty extension, and the empty extension, yield the fallback.
Off the `protoValue` case this agrees with `detectContentType`. -/
def detectContentTypeFull (filename : JStr) (defaultType : JStr := octetStream) :
    DetectResult :=
  let ext := jsToLower (jsSplitLast '.' filename)
  if ext = [] then DetectResult.mime defaultType
  else
    match lookupContentType ext with
    | some v => DetectResult.mime v
    | none =>
        if ext ∈ objectPrototypeKeys then DetectResult.protoValue ext
        else DetectResult.mime defaultType

/-- `ArtifactMetadata` of `src/types.ts`; every field is optional. -/
structure ArtifactMetadata where
  contentType : Option JStr := none
  filename : Option JStr := none
  size : Option Nat := none
  uploadedAt : Option Nat := none
  customMetadata : Option (List (JStr × JStr)) := none
deriving DecidableEq

/-- One entry of the `MemoryStorage` map: the stored bytes plus metadata. -/
structure StoredEntry where
  content : Bytes
  metadata : ArtifactMetadata
deriving DecidableEq

/-- The backing `Map` of `MemoryStorage`, as an insertion-ordered
association list with unique keys (the invariant a JS `Map` maintains). -/
abbrev Store := List (JStr × StoredEntry)

/-- JS `Map.set`: replace in place when the key exists, else append. -/
def mapSet (k : JStr) (v : StoredEntry) : Store → Store
  | [] => [(k, v)]
  | p :: rest => if p.1 = k then (k, v) :: rest else p :: mapSet k v rest

/-- JS `Map.get` (first matching key). -/
def mapGet (k : JStr) : Store → Option StoredEntry
  | [] => none
  | p :: rest => if p.1 = k then some p.2 else mapGet k rest

/-- JS `Map.has`. -/
def mapHas (k : JStr) : Store → Bool
  | [] => false
  | p :: rest => p.1 = k || mapHas k rest

/-- JS `Map.delete`: returns whether a binding was removed, and the map
with the first binding of the key removed. -/
def mapDelete (k : JStr) : Store → Bool × Store
  | [] => (false, [])
  | p :: rest =>
      if p.1 = k then (true, rest)
      else
        let r := mapDelete k rest
        (r.1, p :: r.2)

/-- JS `Map.keys` (insertion order). -/
def mapKeys (st : Store) : List JStr := st.map Prod.fst

/-- `MemoryStorage.put`: stores the bytes under `hash` with metadata
`{ size: bytes.length, uploadedAt: Date.now(), ...metadata }` — the spread
means a `size` or `uploadedAt` present in `metadata` overrides the
defaults; `now` models this call of `Date.now()`. -/
def memPut (hash : JStr) (content : Bytes) (metadata : ArtifactMetadata)
    (now : Nat) (st : Store) : Store :=
  mapSet hash
    { content := content
    , metadata :=
        { metadata with
            size := metadata.size <|> some content.length
          , uploadedAt := metadata.uploadedAt <|> some now } } st

/-- `StoredArtifact` of `src/types.ts` (body modelled as its bytes). -/
structure StoredArtifact where
  hash : JStr
  body : Bytes
  metadata : ArtifactMetadata
deriving DecidableEq

/-- `MemoryStorage.get`: `null` when absent, else the stored artifact; the
body is the stored byte content. -/
def memGet (hash : JStr) (st : Store) : Option StoredArtifact :=
  (mapGet hash st).map fun e =>
    { hash := hash, body := e.content, metadata := e.metadata }

/-- `MemoryStorage.delete`: the Boolean result and the updated store. -/
def memDelete (hash : JStr) (st : Store) : Bool × Store := mapDelete hash st

/-- `MemoryStorage.exists`. -/
def memExists (hash : JStr) (st : Store) : Bool := mapHas hash st

/-- Options of `list` (`limit`, `cursor`). -/
structure ListOptions where
  limit : Option Nat := none
  cursor : Option JStr := none
deriving DecidableEq

/-- `MemoryStorage.list`: all keys, truncated to `options.limit ?? 1000`. -/
def memList (options : ListOptions) (st : Store) : List JStr :=
  (mapKeys st).take (options.limit.getD 1000)

/-- The `MemoryStorage` states reachable through its mutating operations
from the freshly constructed (empty) map. -/
inductive Reachable : Store → Prop
  | empty : Reachable []
  | put : ∀ (h : JStr) (c : Bytes) (m : ArtifactMetadata) (now : Nat)
      {st : Store}, Reachable st → Reachable (memPut h c m now st)
  | del : ∀ (h : JStr) {st : Store}, Reachable st →
      Reachable (memDelete h st).2
  | clear : ∀ {st : Store}, Reachable st → Reachable []

/-- The constructor-resolved configuration of a `CDN` instance: `baseUrl`
with the trailing slash already stripped, and the `??`-defaulted fields. -/
structure CDNConfig where
  baseUrl : JStr
  cacheMaxAge : Nat := 31536000
  defaultContentType : JStr := octetStream
  cors : Bool := true
deriving DecidableEq

/-- `UploadResult` of `src/types.ts`. -/
structure UploadResult where
  hash : JStr
  url : JStr
  created : Bool
  metadata : ArtifactMetadata
deriving DecidableEq

/-- The outcome of one `CDN.put` call over the `MemoryStorage` backend:
the returned `UploadResult`, the backend state afterwards, and how many
`storage.put` calls this `CDN.put` call performed. -/
structure PutOutcome where
  result : UploadResult
  store : Store
  storageWrites : Nat
deriving DecidableEq

/-- The `metadata.contentType || (metadata.filename ? detectContentType(...)
: this.defaultContentType)` resolution inside `CDN.put`.  JS `||` and `?:`
test truthiness, and the empty string is falsy. -/
def resolveContentType (cfg : CDNConfig) (metadata : ArtifactMetadata) : JStr :=
  let fromFilename :=
    match metadata.filename with
    | some fn =>
        if fn = [] then cfg.defaultContentType
        else detectContentType fn cfg.defaultContentType
    | none => cfg.defaultContentType
  match metadata.contentType with
  | some ct => if ct = [] then fromFilename else ct
  | none => fromFilename

/-- `CDN.put` of `src/unnamed/part_002` over the `MemoryStorage` backend:
hash the payload bytes, check existence, resolve the content type, build
the full metadata (`size` from the bytes, `uploadedAt` from `Date.now()`,
modelled as `now`), store unconditionally (`storageWrites := 1` records
the single `storage.put` call this always performs), and build the URL;
`ext = metadata.filename?.split('.').pop()` and
`urlPath = ext ? hash + '.' + ext : hash` (the empty string is falsy). -/
def cdnPut (cfg : CDNConfig) (hashFn : Bytes → JStr) (content : Bytes)
    (metadata : ArtifactMetadata) (now : Nat) (st : Store) : PutOutcome :=
  let bytes := content
  let hash := hashFn bytes
  let exists0 := memExists hash st
  let contentType := resolveContentType cfg metadata
  let fullMetadata : ArtifactMetadata :=
    { contentType := some contentType
    , filename := metadata.filename
    , size := some bytes.length
    , uploadedAt := some now
    , customMetadata := metadata.customMetadata }
  let st2 := memPut hash bytes fullMetadata now st
  let ext : Option JStr := metadata.filename.map (jsSplitLast '.')
  let urlPath :=
    match ext with
    | some e => if e = [] then hash else hash ++ '.' :: e
    | none => hash
  { result :=
      { hash := hash
      , url := cfg.baseUrl ++ "/a/".toList ++ urlPath
      , created := !exists0
      , metadata := fullMetadata }
  , store := st2
  , storageWrites := 1 }

/-- N sequential `CDN.put` calls of the same payload and metadata; the
list element `t` is the `Date.now()` of that call. -/
def cdnPutSeq (cfg : CDNConfig) (hashFn : Bytes → JStr) (content : Bytes)
    (metadata : ArtifactMetadata) : List Nat → Store → List PutOutcome
  | [], _ => []
  | t :: ts, st =>
      let o := cdnPut cfg hashFn content metadata t st
      o :: cdnPutSeq cfg hashFn content metadata ts o.store

/-- `CDN.get`: pure delegation to the storage adapter. -/
def cdnGet (hash : JStr) (st : Store) : Option StoredArtifact := memGet hash st

/-- `CDN.delete`: pure delegation. -/
def cdnDelete (hash : JStr) (st : Store) : Bool × Store := memDelete hash st

/-- `CDN.exists`: pure delegation. -/
def cdnExists (hash : JStr) (st : Store) : Bool := memExists hash st

/-- `CDN.list` over an adapter whose optional `list` capability is
`listImpl`: when the capability is absent the call throws the error
whose message reads Storage adapter does not support list(); otherwise it
returns `this.storage.list(options)` unchanged. -/
def cdnList (listImpl : Option (ListOptions → List JStr))
    (options : ListOptions) : Except JStr (List JStr) :=
  match listImpl with
  | none => Except.error "Storage adapter does not support list()".toList
  | some f => Except.ok (f options)

/-- A response body: plain text or raw artifact bytes. -/
inductive RespBody
  | text (s : JStr)
  | bytes (b : Bytes)
deriving DecidableEq

/-- An HTTP response: status, body, headers (in emission order). -/
structure HttpResponse where
  status : Nat
  body : RespBody
  headers : List (JStr × JStr)
deriving DecidableEq

/-- `getCORSHeaders`: the four CORS headers (when enabled) followed by the
route-specific headers. -/
def getCORSHeaders (cfg : CDNConfig) (additional : List (JStr × JStr)) :
    List (JStr × JStr) :=
  if !cfg.cors then additional
  else
    ("Access-Control-Allow-Origin".toList, "*".toList)
      :: ("Access-Control-Allow-Methods".toList, "GET, PUT, DELETE, OPTIONS".toList)
      :: ("Access-Control-Allow-Headers".toList, "Content-Type, X-Filename".toList)
      :: ("Access-Control-Max-Age".toList, "86400".toList)
      :: additional

/-- Lookup of a header value (first match). -/
def headerGet (name : JStr) : List (JStr × JStr) → Option JStr
  | [] => none
  | p :: rest => if p.1 = name then some p.2 else headerGet name rest

/-- The value `public, max-age=N, immutable` of the `Cache-Control`
header. -/
def cacheControlValue (maxAge : Nat) : JStr :=
  "public, max-age=".toList ++ (toString maxAge).toList ++ ", immutable".toList

/-- The `ETag` value: the digest wrapped in double quotes. -/
def etagValue (hash : JStr) : JStr := '\"' :: hash ++ ['\"']

/-- The `artifact.metadata.contentType || this.defaultContentType` of the
serving branch (JS truthiness: the empty string falls back). -/
def servedContentType (cfg : CDNConfig) (meta : ArtifactMetadata) : JStr :=
  match meta.contentType with
  | some c => if c = [] then cfg.defaultContentType else c
  | none => cfg.defaultContentType

/-- `CDN.handleRequest` restricted to the read path, which is all the
stated properties touch: the guard that the method is GET and the pathname
starts with "/a/", the extraction of the filename by replacing the first
occurrence of "/a/" with the empty string, the hash as the part of the
filename before the first dot, the lookup, and the 404 fallthrough for any
other GET path (for a GET request the PUT/DELETE/OPTIONS branches of the
router cannot fire).  The `ETag` is built from the extracted hash. -/
def handleGetRequest (cfg : CDNConfig) (method path : JStr) (st : Store) :
    HttpResponse :=
  if method = "GET".toList ∧ jsStartsWith "/a/".toList path then
    match memGet (jsSplitHead '.' (jsReplaceFirst "/a/".toList [] path)) st with
    | none =>
        { status := 404
        , body := RespBody.text "Not found".toList
        , headers := getCORSHeaders cfg [] }
    | some artifact =>
        { status := 200
        , body := RespBody.bytes artifact.body
        , headers := getCORSHeaders cfg
            [ ("Content-Type".toList, servedContentType cfg artifact.metadata)
            , ("Cache-Control".toList, cacheControlValue cfg.cacheMaxAge)
            , ("ETag".toList,
                etagValue (jsSplitHead '.' (jsReplaceFirst "/a/".toList [] path))) ] }
  else
    { status := 404
    , body := RespBody.text "Not found".toList
    , headers := getCORSHeaders cfg [] }

/-! ### Map lemmas -/

theorem mapGet_mapSet_self (k : JStr) (v : StoredEntry) (st : Store) :
    mapGet k (mapSet k v st) = some v := by
  induction st with
  | nil => simp [mapSet, mapGet]
  | cons p rest ih =>
      by_cases h : p.1 = k
      · simp [mapSet, mapGet, h]
      · simp [mapSet, mapGet, h, ih]

theorem mapGet_isSome_eq_mapHas (k : JStr) (st : Store) :
    (mapGet k st).isSome = mapHas k st := by
  induction st with
  | nil => simp [mapGet, mapHas]
  | cons p rest ih =>
      by_cases h : p.1 = k
      · simp [mapGet, mapHas, h]
      · simp [mapGet, mapHas, h, ih]

theorem mapHas_iff_mem_keys (k : JStr) (st : Store) :
    mapHas k st = true ↔ k ∈ mapKeys st := by
  induction st with
  | nil => simp [mapHas, mapKeys]
  | cons p rest ih =>
      simp only [mapHas, Bool.or_eq_true, decide_eq_true_eq, ih, mapKeys,
        List.map_cons, List.mem_cons]
      exact or_congr ⟨fun h => h.symm, fun h => h.symm⟩ Iff.rfl

theorem mapHas_mapSet_self (k : JStr) (v : StoredEntry) (st : Store) :
    mapHas k (mapSet k v st) = true := by
  rw [← mapGet_isSome_eq_mapHas, mapGet_mapSet_self]
  rfl

theorem mapKeys_mapSet (k : JStr) (v : StoredEntry) (st : Store) :
    mapKeys (mapSet k v st) =
      if mapHas k st then mapKeys st else mapKeys st ++ [k] := by
  induction st with
  | nil => simp [mapSet, mapHas, mapKeys]
  | cons p rest ih =>
      by_cases h : p.1 = k
      · simp [mapSet, mapHas, mapKeys, h]
      · by_cases h2 : mapHas k rest
        · simp [mapSet, mapHas, mapKeys, h, h2] at ih ⊢
          exact ih
        · simp [mapSet, mapHas, mapKeys, h, h2] at ih ⊢
          exact ih

theorem mapDelete_fst (k : JStr) (st : Store) :
    (mapDelete k st).1 = mapHas k st := by
  induction st with
  | nil => simp [mapDelete, mapHas]
  | cons p rest ih =>
      by_cases h : p.1 = k
      · simp [mapDelete, mapHas, h]
      · simp [mapDelete, mapHas, h, ih]

theorem mapKeys_mapDelete_sublist (k : JStr) (st : Store) :
    (mapKeys (mapDelete k st).2).Sublist (mapKeys st) := by
  induction st with
  | nil => simp [mapDelete, mapKeys]
  | cons p rest ih =>
      by_cases h : p.1 = k
      · simp only [mapDelete, h, if_pos]
        exact (List.sublist_cons_self p.1 (mapKeys rest)).trans (List.Sublist.refl _)
      · simp only [mapDelete, h, if_neg, not_false_iff]
        exact List.Sublist.cons₂ p.1 ih

theorem mapHas_mapDelete_self (k : JStr) (st : Store)
    (hnd : (mapKeys st).Nodup) : mapHas k (mapDelete k st).2 = false := by
  induction st with
  | nil => simp [mapDelete, mapHas]
  | cons p rest ih =>
      simp only [mapKeys, List.map_cons, List.nodup_cons] at hnd
      by_cases h : p.1 = k
      · simp only [mapDelete, h, if_pos]
        subst h
        rw [← Bool.not_eq_true, mapHas_iff_mem_keys]
        exact hnd.1
      · simp [mapDelete, h, mapHas, ih hnd.2]

theorem mapKeys_nodup_mapSet (k : JStr) (v : StoredEntry) (st : Store)
    (hnd : (mapKeys st).Nodup) : (mapKeys (mapSet k v st)).Nodup := by
  rw [mapKeys_mapSet]
  by_cases h : mapHas k st
  · simpa [h]
  · simp only [h, if_neg, Bool.false_eq_true, not_false_iff]
    rw [List.nodup_append]
    refine ⟨hnd, List.nodup_singleton k, ?_⟩
    intro a ha hb
    simp only [List.mem_singleton] at hb
    subst hb
    exact h ((mapHas_iff_mem_keys a st).2 ha)

theorem reachable_nodup_keys {st : Store} (h : Reachable st) :
    (mapKeys st).Nodup := by
  induction h with
  | empty => simp [mapKeys]
  | put hh c m now _ ih => exact mapKeys_nodup_mapSet _ _ _ ih
  | del hh _ ih => exact ih.sublist (mapKeys_mapDelete_sublist _ _)
  | clear _ _ => simp [mapKeys]

/-! ### String-parsing lemmas -/

theorem takeWhile_of_all {p : Char → Bool} {l : JStr}
    (h : ∀ a ∈ l, p a = true) : l.takeWhile p = l := by
  induction l with
  | nil => rfl
  | cons c rest ih =>
      have hc := h c (List.mem_cons_self c rest)
      simp [List.takeWhile_cons, hc, ih fun a ha => h a (List.mem_cons_of_mem c ha)]

theorem takeWhile_append_stop {p : Char → Bool} {l1 l2 : JStr} {a : Char}
    (h1 : ∀ x ∈ l1, p x = true) (h2 : p a = false) :
    (l1 ++ a :: l2).takeWhile p = l1 := by
  induction l1 with
  | nil => simp [List.takeWhile_cons, h2]
  | cons c rest ih =>
      have hc := h1 c (List.mem_cons_self c rest)
      simp [List.takeWhile_cons, hc,
        ih fun x hx => h1 x (List.mem_cons_of_mem c hx)]

theorem jsSplitLast_no_sep {sep : Char} {s : JStr} (h : sep ∉ s) :
    jsSplitLast sep s = s := by
  unfold jsSplitLast
  rw [takeWhile_of_all, List.reverse_reverse]
  intro a ha
  simp only [decide_eq_true_eq]
  intro he
  exact h (by simpa [he] using List.mem_reverse.mp ha)

theorem jsSplitLast_append_sep {sep : Char} (stem : JStr) {e : JStr}
    (h : sep ∉ e) : jsSplitLast sep (stem ++ sep :: e) = e := by
  unfold jsSplitLast
  have hrev : (stem ++ sep :: e).reverse = e.reverse ++ sep :: stem.reverse := by
    simp
  rw [hrev, takeWhile_append_stop, List.reverse_reverse]
  · intro x hx
    simp only [decide_eq_true_eq]
    intro he
    exact h (by simpa [he] using List.mem_reverse.mp hx)
  · simp

theorem jsSplitHead_no_sep {sep : Char} {s : JStr} (h : sep ∉ s) :
    jsSplitHead sep s = s := by
  induction s with
  | nil => rfl
  | cons c rest ih =>
      have hc : c ≠ sep := fun he => h (he ▸ List.mem_cons_self c rest)
      simp [jsSplitHead, hc, ih fun hm => h (List.mem_cons_of_mem c hm)]

theorem jsSplitHead_append_sep {sep : Char} {s : JStr} (t : JStr)
    (h : sep ∉ s) : jsSplitHead sep (s ++ sep :: t) = s := by
  induction s with
  | nil => simp [jsSplitHead]
  | cons c rest ih =>
      have hc : c ≠ sep := fun he => h (he ▸ List.mem_cons_self c rest)
      simp [jsSplitHead, hc, ih fun hm => h (List.mem_cons_of_mem c hm)]

theorem jsReplaceFirst_cancel (p t : JStr) :
    jsReplaceFirst p [] (p ++ t) = t := by
  cases p with
  | nil =>
      cases t with
      | nil => simp [jsReplaceFirst]
      | cons c r => simp [jsReplaceFirst, jsStartsWith]
  | cons a q =>
      have hs : jsStartsWith (a :: q) ((a :: q) ++ t) = true := by
        simp [jsStartsWith, List.take_left]
      show jsReplaceFirst (a :: q) [] (a :: (q ++ t)) = t
      rw [jsReplaceFirst]
      simp only [← List.cons_append, hs, if_pos, List.nil_append]
      exact List.drop_left (a :: q) t

/-! ### Sequential-put lemmas -/

theorem cdnPutSeq_map_hash (cfg : CDNConfig) (hashFn : Bytes → JStr)
    (b : Bytes) (m : ArtifactMetadata) (ts : List Nat) (st : Store) :
    (cdnPutSeq cfg hashFn b m ts st).map (fun o => o.result.hash) =
      ts.map (fun _ => hashFn b) := by
  induction ts generalizing st with
  | nil => rfl
  | cons t rest ih => simp [cdnPutSeq, cdnPut, ih]

theorem cdnPutSeq_map_writes (cfg : CDNConfig) (hashFn : Bytes → JStr)
    (b : Bytes) (m : ArtifactMetadata) (ts : List Nat) (st : Store) :
    (cdnPutSeq cfg hashFn b m ts st).map (fun o => o.storageWrites) =
      ts.map (fun _ => 1) := by
  induction ts generalizing st with
  | nil => rfl
  | cons t rest ih => simp [cdnPutSeq, cdnPut, ih]

theorem memExists_cdnPut_store (cfg : CDNConfig) (hashFn : Bytes → JStr)
    (b : Bytes) (m : ArtifactMetadata) (t : Nat) (st : Store) :
    memExists (hashFn b) (cdnPut cfg hashFn b m t st).store = true := by
  simp [cdnPut, memExists, memPut, mapHas_mapSet_self]

theorem cdnPutSeq_map_created_of_exists (cfg : CDNConfig)
    (hashFn : Bytes → JStr) (b : Bytes) (m : ArtifactMetadata)
    (ts : List Nat) (st : Store) (h : memExists (hashFn b) st = true) :
    (cdnPutSeq cfg hashFn b m ts st).map (fun o => o.result.created) =
      ts.map (fun _ => false) := by
  induction ts generalizing st with
  | nil => rfl
  | cons t rest ih =>
      simp only [cdnPutSeq, List.map_cons]
      rw [ih _ (memExists_cdnPut_store cfg hashFn b m t st)]
      simp [cdnPut, h]

/-! ### Stores built by repeated puts -/

/-- The store obtained by a `put` of empty content under each key of `ks`
in order, starting from the freshly constructed adapter. -/
def fromPuts (ks : List JStr) : Store :=
  ks.foldl (fun st k => memPut k [] {} 0 st) []

theorem reachable_foldl_memPut (ks : List JStr) (st : Store)
    (h : Reachable st) :
    Reachable (ks.foldl (fun s k => memPut k [] {} 0 s) st) := by
  induction ks generalizing st with
  | nil => exact h
  | cons k rest ih => exact ih _ (Reachable.put k [] {} 0 h)

theorem reachable_fromPuts (ks : List JStr) : Reachable (fromPuts ks) :=
  reachable_foldl_memPut ks [] Reachable.empty

theorem mapKeys_memPut (k : JStr) (c : Bytes) (m : ArtifactMetadata)
    (t : Nat) (st : Store) :
    mapKeys (memPut k c m t st) =
      if mapHas k st then mapKeys st else mapKeys st ++ [k] := by
  unfold memPut
  exact mapKeys_mapSet k _ st

theorem mapKeys_foldl_memPut (ks : List JStr) (st : Store)
    (hnd : ks.Nodup) (hfresh : ∀ k ∈ ks, mapHas k st = false) :
    mapKeys (ks.foldl (fun s k => memPut k [] {} 0 s) st) =
      mapKeys st ++ ks := by
  induction ks generalizing st with
  | nil => simp
  | cons k rest ih =>
      simp only [List.foldl_cons]
      have hk : mapHas k st = false := hfresh k (List.mem_cons_self k rest)
      have hkeys : mapKeys (memPut k [] {} 0 st) = mapKeys st ++ [k] := by
        rw [mapKeys_memPut, hk]
        simp
      rw [ih (memPut k [] {} 0 st) (List.nodup_cons.mp hnd).2, hkeys]
      · simp
      · intro x hx
        rw [← Bool.not_eq_true, mapHas_iff_mem_keys, hkeys]
        simp only [List.mem_append, List.mem_singleton]
        rintro (hmem | heq)
        · have hh : mapHas x st = true := (mapHas_iff_mem_keys x st).mpr hmem
          rw [hfresh x (List.mem_cons_of_mem k hx)] at hh
          exact Bool.false_ne_true hh
        · exact (List.nodup_cons.mp hnd).1 (heq ▸ hx)

theorem mapKeys_fromPuts (ks : List JStr) (hnd : ks.Nodup) :
    mapKeys (fromPuts ks) = ks := by
  unfold fromPuts
  rw [mapKeys_foldl_memPut ks [] hnd (fun k _ => rfl)]
  rfl

/-- Distinct unary keys used to populate a large store. -/
def mkKey (n : Nat) : JStr := List.replicate n 'a'

theorem mkKey_injective : Function.Injective mkKey := by
  intro a b h
  have := congrArg List.length h
  simpa [mkKey] using this

/-- A store holding 1001 artifacts with pairwise distinct digests. -/
def bigStore : Store := fromPuts ((List.range 1001).map mkKey)

theorem mapKeys_bigStore : mapKeys bigStore = (List.range 1001).map mkKey :=
  mapKeys_fromPuts _ ((List.nodup_range 1001).map mkKey_injective)

/-! ### Shared concrete fixtures for witnesses and counterexamples -/

/-- A concrete configuration (all defaults, the base URL of the tests). -/
def testConfig : CDNConfig := { baseUrl := "https://cdn.example.com".toList }

/-- A concrete stand-in digest function (the hashing primitive is external
to the repository; any deterministic function exercises the orchestrator). -/
def constHash : Bytes → JStr := fun _ => ['h']

theorem sum_map_one (ts : List Nat) : (ts.map (fun _ => 1)).sum = ts.length := by
  induction ts with
  | nil => rfl
  | cons t rest ih => simp [ih, Nat.add_comm]

/-! ### Claims -/

/-- C1 (amended): `put` is idempotent in digest and in `created`, but not
in backend writes: starting from a state where the digest of `b` is not
stored, N sequential `put(b)` calls (N = `ts.length` ≥ 1) return the same
digest on every call and return `created = true` on the first call and
`created = false` on every subsequent call — but each call performs one
backend write (`storage.put` is called unconditionally), so the backend is
written N times, not at most once. -/
theorem C1_put_idempotence (cfg : CDNConfig) (hashFn : Bytes → JStr)
    (b : Bytes) (m : ArtifactMetadata) (ts : List Nat) (st : Store)
    (hne : ts ≠ []) (h0 : memExists (hashFn b) st = false) :
    ((cdnPutSeq cfg hashFn b m ts st).map (fun o => o.result.hash) =
        ts.map (fun _ => hashFn b)) ∧
    ((cdnPutSeq cfg hashFn b m ts st).map (fun o => o.result.created) =
        true :: ts.tail.map (fun _ => false)) ∧
    (((cdnPutSeq cfg hashFn b m ts st).map (fun o => o.storageWrites)).sum =
        ts.length) := by
  refine ⟨cdnPutSeq_map_hash cfg hashFn b m ts st, ?_, ?_⟩
  · cases ts with
    | nil => exact absurd rfl hne
    | cons t rest =>
        simp only [cdnPutSeq, List.map_cons, List.tail_cons]
        rw [cdnPutSeq_map_created_of_exists cfg hashFn b m rest _
          (memExists_cdnPut_store cfg hashFn b m t st)]
        simp [cdnPut, h0]
  · rw [cdnPutSeq_map_writes, sum_map_one]

/-- C1 witness: the amended idempotence statement, instantiated at two
sequential puts of the bytes `[0]` into an empty store. -/
theorem C1_put_idempotence_witness :
    ((cdnPutSeq testConfig constHash [0] {} [1, 2] []).map
        (fun o => o.result.hash) = [1, 2].map (fun _ => constHash [0])) ∧
    ((cdnPutSeq testConfig constHash [0] {} [1, 2] []).map
        (fun o => o.result.created) = true :: [1, 2].tail.map (fun _ => false)) ∧
    (((cdnPutSeq testConfig constHash [0] {} [1, 2] []).map
        (fun o => o.storageWrites)).sum = [1, 2].length) :=
  C1_put_idempotence testConfig constHash [0] {} [1, 2] [] (by decide) rfl

/-- C1 counterexample: two sequential puts of identical bytes, starting
from a state where the digest is not stored, perform two backend writes —
refuting the claimed "writes to the storage backend at most once"
(`storage.put` is called unconditionally on every `CDN.put`). -/
theorem C1_put_idempotence_cex :
    memExists (constHash [0]) [] = false ∧
    ((cdnPutSeq testConfig constHash [0] {} [1, 2] []).map
        (fun o => o.storageWrites)).sum = 2 ∧
    ¬ (((cdnPutSeq testConfig constHash [0] {} [1, 2] []).map
        (fun o => o.storageWrites)).sum ≤ 1) :=
  ⟨rfl, rfl, by decide⟩

/-- C2: round-trip — after `result = put(b)`, `get(result.hash)` over the
MemoryStorage backend returns an artifact whose body is exactly the bytes
`b`. -/
theorem C2_round_trip (cfg : CDNConfig) (hashFn : Bytes → JStr) (b : Bytes)
    (m : ArtifactMetadata) (t : Nat) (st : Store) :
    (cdnGet (cdnPut cfg hashFn b m t st).result.hash
        (cdnPut cfg hashFn b m t st).store).map (fun a => a.body) = some b := by
  simp [cdnGet, cdnPut, memGet, memPut, mapGet_mapSet_self]

/-- C3 counterexample: the first put at time 10 stores
`uploadedAt = some 10`; a second put of the same bytes at time 20
overwrites the stored metadata, leaving `uploadedAt = some 20` — so the
stored metadata is NOT unchanged by a repeated put. -/
theorem C3_repeat_put_cex :
    ((mapGet (constHash [1]) (cdnPut testConfig constHash [1] {} 10 []).store).map
        (fun e => e.metadata.uploadedAt) = some (some 10)) ∧
    ((mapGet (constHash [1]) (cdnPut testConfig constHash [1] {} 20
        (cdnPut testConfig constHash [1] {} 10 []).store).store).map
        (fun e => e.metadata.uploadedAt) = some (some 20)) ∧
    (some (some (20 : Nat)) ≠ some (some (10 : Nat))) :=
  ⟨rfl, rfl, by decide⟩

/-- C3 (amended): a repeated put of already-stored content is not a pure
dedup hit — the unconditional backend write replaces the stored entry with
the metadata assembled by the later call, so the stored `uploadedAt`
equals the second call's timestamp (last-write-wins), not the first's. -/
theorem C3_repeat_put_overwrites (cfg : CDNConfig) (hashFn : Bytes → JStr)
    (b : Bytes) (m : ArtifactMetadata) (t1 t2 : Nat) (st : Store) :
    (mapGet (hashFn b)
        (cdnPut cfg hashFn b m t2 (cdnPut cfg hashFn b m t1 st).store).store =
      some { content := b
           , metadata := (cdnPut cfg hashFn b m t2
               (cdnPut cfg hashFn b m t1 st).store).result.metadata }) ∧
    ((cdnPut cfg hashFn b m t2
        (cdnPut cfg hashFn b m t1 st).store).result.metadata.uploadedAt =
      some t2) := by
  constructor
  · simp [cdnPut, memPut, mapGet_mapSet_self, Option.orElse]
  · rfl

/-- C4: addressing independence — the digest returned by `put` is a
function of the payload bytes alone; two puts of the same bytes with
arbitrary differing metadata, states and times return the identical
digest. -/
theorem C4_addressing_independence (cfg : CDNConfig) (hashFn : Bytes → JStr)
    (b : Bytes) (m1 m2 : ArtifactMetadata) (t1 t2 : Nat) (s1 s2 : Store) :
    (cdnPut cfg hashFn b m1 t1 s1).result.hash = hashFn b ∧
    (cdnPut cfg hashFn b m1 t1 s1).result.hash =
      (cdnPut cfg hashFn b m2 t2 s2).result.hash :=
  ⟨rfl, rfl⟩

/-- C5: extension transparency — for a stored digest `h` (digests are hex
strings, hence dot-free) and any extension suffix `s`, `GET /a/h` and
`GET /a/h.s` produce the identical response: in particular byte-identical
bodies and identical ETag headers, with status 200, because the reader
strips any extension from the path segment before lookup. -/
theorem C5_extension_transparency (cfg : CDNConfig) (st : Store)
    (h s : JStr) (hdot : '.' ∉ h) (hstored : memExists h st = true) :
    (handleGetRequest cfg "GET".toList ("/a/".toList ++ h) st =
      handleGetRequest cfg "GET".toList ("/a/".toList ++ h ++ '.' :: s) st) ∧
    ((handleGetRequest cfg "GET".toList ("/a/".toList ++ h) st).body =
      (handleGetRequest cfg "GET".toList ("/a/".toList ++ h ++ '.' :: s) st).body) ∧
    (headerGet "ETag".toList
        (handleGetRequest cfg "GET".toList ("/a/".toList ++ h) st).headers =
      headerGet "ETag".toList
        (handleGetRequest cfg "GET".toList ("/a/".toList ++ h ++ '.' :: s) st).headers) ∧
    ((handleGetRequest cfg "GET".toList ("/a/".toList ++ h) st).status = 200) := by
  have hash1 : jsSplitHead '.'
      (jsReplaceFirst "/a/".toList [] ("/a/".toList ++ h)) = h := by
    rw [jsReplaceFirst_cancel]
    exact jsSplitHead_no_sep hdot
  have hash2 : jsSplitHead '.'
      (jsReplaceFirst "/a/".toList [] ("/a/".toList ++ h ++ '.' :: s)) = h := by
    rw [List.append_assoc, jsReplaceFirst_cancel]
    exact jsSplitHead_append_sep s hdot
  have hg1 : jsStartsWith "/a/".toList ("/a/".toList ++ h) = true := by
    simp [jsStartsWith, List.take_left]
  have hg2 : jsStartsWith "/a/".toList
      ("/a/".toList ++ h ++ '.' :: s) = true := by
    rw [List.append_assoc]
    simp [jsStartsWith, List.take_left]
  obtain ⟨e, he⟩ : ∃ e, mapGet h st = some e := by
    have hh := hstored
    rw [memExists, ← mapGet_isSome_eq_mapHas] at hh
    exact Option.isSome_iff_exists.mp hh
  have heq : handleGetRequest cfg "GET".toList ("/a/".toList ++ h) st =
      handleGetRequest cfg "GET".toList ("/a/".toList ++ h ++ '.' :: s) st := by
    unfold handleGetRequest
    rw [if_pos ⟨rfl, hg1⟩, if_pos ⟨rfl, hg2⟩, hash1, hash2]
  have hstat : (handleGetRequest cfg "GET".toList ("/a/".toList ++ h) st).status
      = 200 := by
    unfold handleGetRequest
    rw [if_pos ⟨rfl, hg1⟩, hash1]
    simp [memGet, he]
  exact ⟨heq, congrArg HttpResponse.body heq,
    congrArg (fun r => headerGet "ETag".toList r.headers) heq, hstat⟩

/-- C5 witness: a store holding the digest `ab`, queried as `/a/ab` and as
`/a/ab.png`. -/
theorem C5_extension_transparency_witness :
    (handleGetRequest testConfig "GET".toList
        ("/a/".toList ++ "ab".toList)
        [("ab".toList, { content := [9], metadata := {} })] =
      handleGetRequest testConfig "GET".toList
        ("/a/".toList ++ "ab".toList ++ '.' :: "png".toList)
        [("ab".toList, { content := [9], metadata := {} })]) ∧
    ((handleGetRequest testConfig "GET".toList
        ("/a/".toList ++ "ab".toList)
        [("ab".toList, { content := [9], metadata := {} })]).body =
      (handleGetRequest testConfig "GET".toList
        ("/a/".toList ++ "ab".toList ++ '.' :: "png".toList)
        [("ab".toList, { content := [9], metadata := {} })]).body) ∧
    (headerGet "ETag".toList
        (handleGetRequest testConfig "GET".toList
          ("/a/".toList ++ "ab".toList)
          [("ab".toList, { content := [9], metadata := {} })]).headers =
      headerGet "ETag".toList
        (handleGetRequest testConfig "GET".toList
          ("/a/".toList ++ "ab".toList ++ '.' :: "png".toList)
          [("ab".toList, { content := [9], metadata := {} })]).headers) ∧
    ((handleGetRequest testConfig "GET".toList
        ("/a/".toList ++ "ab".toList)
        [("ab".toList, { content := [9], metadata := {} })]).status = 200) :=
  C5_extension_transparency testConfig
    [("ab".toList, { content := [9], metadata := {} })]
    "ab".toList "png".toList (by decide) rfl

/-- C6 counterexample: the filename `logo` carries no extension, yet the
returned URL is `{baseUrl}/a/{digest}.logo`, not `{baseUrl}/a/{digest}`:
`split('.').pop()` yields the whole filename when it contains no dot, and
that non-empty string is truthy. -/
theorem C6_url_construction_cex :
    ('.' ∉ "logo".toList) ∧
    ((cdnPut testConfig constHash [1]
        { filename := some "logo".toList } 5 []).result.url =
      testConfig.baseUrl ++ "/a/".toList ++ constHash [1] ++ '.' :: "logo".toList) ∧
    ((cdnPut testConfig constHash [1]
        { filename := some "logo".toList } 5 []).result.url ≠
      testConfig.baseUrl ++ "/a/".toList ++
        (cdnPut testConfig constHash [1]
          { filename := some "logo".toList } 5 []).result.hash) := by
  refine ⟨by decide, by decide, by decide⟩

/-- C6 (amended): the URL is `{baseUrl}/a/{digest}` when no filename is
supplied, when the filename is empty, and when the filename's last
dot-component is empty (trailing dot); it is `{baseUrl}/a/{digest}.{e}`
where `e` is the substring after the last dot whenever `e` is non-empty —
including the case of a dot-free non-empty filename, where the entire
filename plays the role of the extension. -/
theorem C6_url_construction (cfg : CDNConfig) (hashFn : Bytes → JStr)
    (b : Bytes) (m : ArtifactMetadata) (t : Nat) (st : Store)
    (stem e fn : JStr) (hde : '.' ∉ e) (hee : e ≠ []) (hdf : '.' ∉ fn)
    (hfe : fn ≠ []) :
    ((cdnPut cfg hashFn b { m with filename := none } t st).result.url =
        cfg.baseUrl ++ "/a/".toList ++ hashFn b) ∧
    ((cdnPut cfg hashFn b { m with filename := some [] } t st).result.url =
        cfg.baseUrl ++ "/a/".toList ++ hashFn b) ∧
    ((cdnPut cfg hashFn b
        { m with filename := some (stem ++ ['.']) } t st).result.url =
        cfg.baseUrl ++ "/a/".toList ++ hashFn b) ∧
    ((cdnPut cfg hashFn b
        { m with filename := some (stem ++ '.' :: e) } t st).result.url =
        cfg.baseUrl ++ "/a/".toList ++ hashFn b ++ '.' :: e) ∧
    ((cdnPut cfg hashFn b { m with filename := some fn } t st).result.url =
        cfg.baseUrl ++ "/a/".toList ++ hashFn b ++ '.' :: fn) := by
  have h1 : jsSplitLast '.' (stem ++ ['.']) = [] :=
    jsSplitLast_append_sep stem (List.not_mem_nil '.')
  have h2 : jsSplitLast '.' (stem ++ '.' :: e) = e :=
    jsSplitLast_append_sep stem hde
  have h3 : jsSplitLast '.' fn = fn := jsSplitLast_no_sep hdf
  have h0 : jsSplitLast '.' [] = [] := rfl
  refine ⟨?_, ?_, ?_, ?_, ?_⟩ <;>
    simp [cdnPut, h0, h1, h2, h3, hee, hfe]

/-- C6 witness: the amended URL-construction statement at the filenames
`logo.png` (extension `png`), `logo.`, `file` (dot-free), the empty
filename, and no filename. -/
theorem C6_url_construction_witness :
    ((cdnPut testConfig constHash [1] { filename := none } 5 []).result.url =
        testConfig.baseUrl ++ "/a/".toList ++ constHash [1]) ∧
    ((cdnPut testConfig constHash [1] { filename := some [] } 5 []).result.url =
        testConfig.baseUrl ++ "/a/".toList ++ constHash [1]) ∧
    ((cdnPut testConfig constHash [1]
        { filename := some ("logo".toList ++ ['.']) } 5 []).result.url =
        testConfig.baseUrl ++ "/a/".toList ++ constHash [1]) ∧
    ((cdnPut testConfig constHash [1]
        { filename := some ("logo".toList ++ '.' :: "png".toList) } 5 []).result.url =
        testConfig.baseUrl ++ "/a/".toList ++ constHash [1] ++ '.' :: "png".toList) ∧
    ((cdnPut testConfig constHash [1]
        { filename := some "file".toList } 5 []).result.url =
        testConfig.baseUrl ++ "/a/".toList ++ constHash [1] ++ '.' :: "file".toList) :=
  C6_url_construction testConfig constHash [1] {} 5 [] "logo".toList
    "png".toList "file".toList (by decide) (by decide) (by decide) (by decide)

/-- Every `Object.prototype` member name is absent from the own entries of
the extension table. -/
theorem lookupContentType_proto_none (k : JStr)
    (hk : k ∈ objectPrototypeKeys) : lookupContentType k = none := by
  fin_cases hk <;> decide

/-- C7 counterexample: two failures of the claimed fallback behaviour.
The filename `png` has no extension (it contains no dot), yet
`detectContentType` resolves it to `image/png`, not the fallback, because
`split('.').pop()` yields the whole filename, which is found in the
lookup table.  And the extension `constructor` of `x.constructor` is not
in the lookup table, yet the source does not return the fallback either:
the index access reaches the truthy `constructor` member inherited from
`Object.prototype`, which `||` keeps. -/
theorem C7_content_type_fallback_cex :
    ('.' ∉ "png".toList) ∧
    detectContentType "png".toList = "image/png".toList ∧
    detectContentType "png".toList ≠ octetStream ∧
    lookupContentType "constructor".toList = none ∧
    detectContentTypeFull "x.constructor".toList =
      DetectResult.protoValue "constructor".toList ∧
    detectContentTypeFull "x.constructor".toList ≠
      DetectResult.mime octetStream := by
  refine ⟨by decide, by decide, by decide, by decide, by decide, by decide⟩

/-- C7 (amended): `detectContentType` never throws and returns the
configured fallback exactly when the candidate extension — the substring
after the last dot, or the ENTIRE filename when it contains no dot — is
empty or, lower-cased, is neither an own entry of the lookup table nor an
`Object.prototype` member name.  An empty filename or an unknown ordinary
extension resolves to the fallback; a dot-free filename equal to a known
extension resolves to that MIME type; and an extension naming an
`Object.prototype` member (after lower-casing, only `constructor` and
`__proto__` are reachable) makes the source return the truthy inherited
non-string value instead of the fallback.  Off the prototype-member case
the string-valued `detectContentType` agrees with the full model. -/
theorem C7_content_type_fallback (d mt fn1 fn2 fn3 fn5 : JStr)
    (h1 : jsSplitLast '.' fn1 = [])
    (h2a : lookupContentType (jsToLower (jsSplitLast '.' fn2)) = none)
    (h2b : jsToLower (jsSplitLast '.' fn2) ∉ objectPrototypeKeys)
    (h3 : jsSplitLast '.' fn3 ≠ [])
    (h4 : lookupContentType (jsToLower (jsSplitLast '.' fn3)) = some mt)
    (h5 : jsToLower (jsSplitLast '.' fn5) ∈ objectPrototypeKeys) :
    (detectContentTypeFull [] d = DetectResult.mime d) ∧
    (detectContentTypeFull fn1 d = DetectResult.mime d) ∧
    (detectContentTypeFull fn2 d = DetectResult.mime d) ∧
    (detectContentTypeFull fn2 d = DetectResult.mime (detectContentType fn2 d)) ∧
    (detectContentTypeFull fn3 d = DetectResult.mime mt) ∧
    (detectContentTypeFull fn3 d = DetectResult.mime (detectContentType fn3 d)) ∧
    (detectContentTypeFull fn5 d =
        DetectResult.protoValue (jsToLower (jsSplitLast '.' fn5))) ∧
    (detectContentTypeFull fn5 d ≠ DetectResult.mime d) := by
  have hlookup5 : lookupContentType (jsToLower (jsSplitLast '.' fn5)) = none :=
    lookupContentType_proto_none _ h5
  have hne5 : jsToLower (jsSplitLast '.' fn5) ≠ [] := by
    intro he
    rw [he] at h5
    exact absurd h5 (by decide)
  have hfull5 : detectContentTypeFull fn5 d =
      DetectResult.protoValue (jsToLower (jsSplitLast '.' fn5)) := by
    simp [detectContentTypeFull, hne5, hlookup5, h5]
  refine ⟨rfl, ?_, ?_, ?_, ?_, ?_, hfull5, ?_⟩
  · simp [detectContentTypeFull, h1, jsToLower]
  · by_cases hz : jsToLower (jsSplitLast '.' fn2) = []
    · simp [detectContentTypeFull, hz]
    · simp [detectContentTypeFull, hz, h2a, h2b]
  · by_cases hz : jsToLower (jsSplitLast '.' fn2) = []
    · simp [detectContentTypeFull, detectContentType, hz]
    · simp [detectContentTypeFull, detectContentType, hz, h2a, h2b]
  · have hz : jsToLower (jsSplitLast '.' fn3) ≠ [] := by
      simpa [jsToLower] using h3
    simp [detectContentTypeFull, hz, h4]
  · have hz : jsToLower (jsSplitLast '.' fn3) ≠ [] := by
      simpa [jsToLower] using h3
    simp [detectContentTypeFull, detectContentType, hz, h4]
  · rw [hfull5]
    intro hcontra
    exact DetectResult.noConfusion hcontra

/-- C7 witness: the fallback `text/plain` with the filenames `file.`
(empty extension), `file.unknown` (unknown ordinary extension), `logo.PNG`
(known extension, case-insensitive) and `x.constructor` (extension naming
an `Object.prototype` member). -/
theorem C7_content_type_fallback_witness :
    (detectContentTypeFull [] "text/plain".toList =
        DetectResult.mime "text/plain".toList) ∧
    (detectContentTypeFull "file.".toList "text/plain".toList =
        DetectResult.mime "text/plain".toList) ∧
    (detectContentTypeFull "file.unknown".toList "text/plain".toList =
        DetectResult.mime "text/plain".toList) ∧
    (detectContentTypeFull "file.unknown".toList "text/plain".toList =
        DetectResult.mime
          (detectContentType "file.unknown".toList "text/plain".toList)) ∧
    (detectContentTypeFull "logo.PNG".toList "text/plain".toList =
        DetectResult.mime "image/png".toList) ∧
    (detectContentTypeFull "logo.PNG".toList "text/plain".toList =
        DetectResult.mime
          (detectContentType "logo.PNG".toList "text/plain".toList)) ∧
    (detectContentTypeFull "x.constructor".toList "text/plain".toList =
        DetectResult.protoValue
          (jsToLower (jsSplitLast '.' "x.constructor".toList))) ∧
    (detectContentTypeFull "x.constructor".toList "text/plain".toList ≠
        DetectResult.mime "text/plain".toList) :=
  C7_content_type_fallback "text/plain".toList "image/png".toList
    "file.".toList "file.unknown".toList "logo.PNG".toList
    "x.constructor".toList
    (by decide) (by decide) (by decide) (by decide) (by decide) (by decide)

/-- C8 counterexample: an explicitly supplied empty `contentType` is
present but falsy in JS, so `put` stores the filename-inferred
`image/png`, not the supplied empty string. -/
theorem C8_content_type_precedence_cex :
    ((cdnPut testConfig constHash [1]
        { contentType := some [], filename := some "a.png".toList }
        5 []).result.metadata.contentType = some "image/png".toList) ∧
    (some "image/png".toList ≠ some ([] : JStr)) := by
  refine ⟨by decide, by decide⟩

/-- C8 (amended): an explicitly supplied NON-EMPTY `metadata.contentType`
wins (and is what the backend stores); an absent or empty-string
`contentType` falls through to filename-based detection when a non-empty
filename is present, and to `defaultContentType` otherwise (the code tests
JS truthiness, so the empty string behaves like absence). -/
theorem C8_content_type_precedence (cfg : CDNConfig) (hashFn : Bytes → JStr)
    (b : Bytes) (m : ArtifactMetadata) (t : Nat) (st : Store)
    (ct fn : JStr) (hct : ct ≠ []) (hfn : fn ≠ []) :
    ((cdnPut cfg hashFn b { m with contentType := some ct }
        t st).result.metadata.contentType = some ct) ∧
    ((mapGet (hashFn b)
        (cdnPut cfg hashFn b { m with contentType := some ct } t st).store).map
        (fun e => e.metadata.contentType) = some (some ct)) ∧
    ((cdnPut cfg hashFn b { m with contentType := none, filename := some fn }
        t st).result.metadata.contentType =
      some (detectContentType fn cfg.defaultContentType)) ∧
    ((cdnPut cfg hashFn b { m with contentType := some [], filename := some fn }
        t st).result.metadata.contentType =
      some (detectContentType fn cfg.defaultContentType)) ∧
    ((cdnPut cfg hashFn b { m with contentType := none, filename := none }
        t st).result.metadata.contentType = some cfg.defaultContentType) ∧
    ((cdnPut cfg hashFn b { m with contentType := some [], filename := some [] }
        t st).result.metadata.contentType = some cfg.defaultContentType) := by
  refine ⟨?_, ?_, ?_, ?_, ?_, ?_⟩ <;>
    simp [cdnPut, resolveContentType, memPut, mapGet_mapSet_self, hct, hfn,
      Option.orElse]

/-- C8 witness: the spec's override scenario — `data.txt` with explicit
`application/json` — plus the fall-through cases. -/
theorem C8_content_type_precedence_witness :
    ((cdnPut testConfig constHash [1]
        { contentType := some "application/json".toList }
        5 []).result.metadata.contentType = some "application/json".toList) ∧
    ((mapGet (constHash [1])
        (cdnPut testConfig constHash [1]
          { contentType := some "application/json".toList } 5 []).store).map
        (fun e => e.metadata.contentType) =
      some (some "application/json".toList)) ∧
    ((cdnPut testConfig constHash [1]
        { contentType := none, filename := some "data.txt".toList }
        5 []).result.metadata.contentType =
      some (detectContentType "data.txt".toList testConfig.defaultContentType)) ∧
    ((cdnPut testConfig constHash [1]
        { contentType := some [], filename := some "data.txt".toList }
        5 []).result.metadata.contentType =
      some (detectContentType "data.txt".toList testConfig.defaultContentType)) ∧
    ((cdnPut testConfig constHash [1]
        { contentType := none, filename := none }
        5 []).result.metadata.contentType = some testConfig.defaultContentType) ∧
    ((cdnPut testConfig constHash [1]
        { contentType := some [], filename := some [] }
        5 []).result.metadata.contentType = some testConfig.defaultContentType) :=
  C8_content_type_precedence testConfig constHash [1]
    { contentType := some "application/json".toList } 5 []
    "application/json".toList "data.txt".toList (by decide) (by decide)

/-- C9: `CDN.list` raises the distinct unsupported-capability error (never
a list result, in particular never the empty list) against an adapter
without the `list` capability, and returns the adapter's result unchanged
when the capability is present — in particular it delegates unchanged to
`MemoryStorage.list`. -/
theorem C9_list_capability (opts : ListOptions) (st : Store)
    (f : ListOptions → List JStr) (l : List JStr) :
    (cdnList none opts =
        Except.error "Storage adapter does not support list()".toList) ∧
    (cdnList none opts ≠ Except.ok l) ∧
    (cdnList (some f) opts = Except.ok (f opts)) ∧
    (cdnList (some (fun o => memList o st)) opts =
        Except.ok (memList opts st)) := by
  refine ⟨rfl, ?_, rfl, rfl⟩
  simp [cdnList]

/-- C10 counterexample: a reachable store holding 1001 artifacts; the
1001st digest exists, but does not appear in the `list()` result, which is
capped at the default limit of 1000 keys — refuting the claimed
equivalence between `exists(h)` and membership in `list()`. -/
theorem C10_memory_storage_invariant_cex :
    Reachable bigStore ∧
    memExists (mkKey 1000) bigStore = true ∧
    mkKey 1000 ∉ memList {} bigStore := by
  refine ⟨reachable_fromPuts _, ?_, ?_⟩
  · refine (mapHas_iff_mem_keys _ _).mpr ?_
    rw [mapKeys_bigStore]
    exact List.mem_map_of_mem mkKey (List.mem_range.mpr (by omega))
  · have hL : memList {} bigStore = ((List.range 1001).map mkKey).take 1000 := by
      rw [memList, mapKeys_bigStore]
      rfl
    rw [hL, ← List.map_take, List.take_range]
    intro hmem
    obtain ⟨i, hi, he⟩ := List.mem_map.mp hmem
    have hieq : i = 1000 := mkKey_injective he
    subst hieq
    rw [List.mem_range] at hi
    omega

/-- C10 (amended): in every reachable MemoryStorage state, `exists(h)` is
true iff `get(h)` is non-null iff `h` is among the map's keys;
`list(options)` returns only the first `limit` (default 1000) keys, so
membership in `list()` coincides with existence whenever the store holds
at most `limit` entries; `delete(h)` returns true exactly when `h`
existed and leaves `exists(h)` false; a put under `h` always leaves
`exists(h)` true. -/
theorem C10_memory_storage_invariant (st : Store) (h : JStr)
    (opts : ListOptions) (c : Bytes) (m : ArtifactMetadata) (t : Nat)
    (hr : Reachable st) (hlim : st.length ≤ opts.limit.getD 1000) :
    (memExists h st = (memGet h st).isSome) ∧
    (memExists h st = true ↔ h ∈ mapKeys st) ∧
    (memExists h st = true ↔ h ∈ memList opts st) ∧
    ((memDelete h st).1 = memExists h st) ∧
    (memExists h (memDelete h st).2 = false) ∧
    (memExists h (memPut h c m t st) = true) := by
  have hnd := reachable_nodup_keys hr
  refine ⟨?_, mapHas_iff_mem_keys h st, ?_, mapDelete_fst h st,
    mapHas_mapDelete_self h st hnd, ?_⟩
  · rw [memExists, memGet, ← mapGet_isSome_eq_mapHas]
    cases mapGet h st <;> rfl
  · have htake : (mapKeys st).take (opts.limit.getD 1000) = mapKeys st :=
      List.take_of_length_le (by simpa [mapKeys] using hlim)
    rw [memList, htake]
    exact mapHas_iff_mem_keys h st
  · exact mapHas_mapSet_self h _ st

/-- C10 witness: a one-entry reachable store, queried at its own key. -/
theorem C10_memory_storage_invariant_witness :
    (memExists ['h'] (memPut ['h'] [2] {} 7 []) =
        (memGet ['h'] (memPut ['h'] [2] {} 7 [])).isSome) ∧
    (memExists ['h'] (memPut ['h'] [2] {} 7 []) = true ↔
        ['h'] ∈ mapKeys (memPut ['h'] [2] {} 7 [])) ∧
    (memExists ['h'] (memPut ['h'] [2] {} 7 []) = true ↔
        ['h'] ∈ memList {} (memPut ['h'] [2] {} 7 [])) ∧
    ((memDelete ['h'] (memPut ['h'] [2] {} 7 [])).1 =
        memExists ['h'] (memPut ['h'] [2] {} 7 [])) ∧
    (memExists ['h'] (memDelete ['h'] (memPut ['h'] [2] {} 7 [])).2 = false) ∧
    (memExists ['h'] (memPut ['h'] [3] {} 9 (memPut ['h'] [2] {} 7 [])) = true) :=
  C10_memory_storage_invariant (memPut ['h'] [2] {} 7 []) ['h'] {} [3] {} 9
    (Reachable.put ['h'] [2] {} 7 Reachable.empty) (by decide)

end HammrCDN
